import Mathlib

/-!
Shallow embedding of the goyave validation engine (`validation/validator.go`)
and of the date-comparison validator family, together with proofs of the
specification's claims about them.

Go dynamic values (`interface{}`) are modelled by the inductive `Value`;
the `map[string]interface{}` data tree by an association list `DataTree`
(Go map reads of a missing key yield `nil`, modelled by `goGet` returning
`Value.vNull`).  Functions that can `panic` in Go return `Option`, with
`none` standing for the fatal failure.  The external localized message
store (`lang.Get`) is a collaborator outside the engine; it is passed in
as an argument `g : String → String → String`.
-/

/-- Dynamic Go value (`interface{}`).  `vInt`/`vFloat` cover Go's numeric
kinds (including runes, which are `int32`), `vFiles` stands for a
`[]filesystem.File` slice (its reflect kind is `slice` but its concrete
type string is `[]filesystem.File`), `vObj` for a nested
`map[string]interface{}`, and `vDate` for a `time.Time` instant modelled
as an integer timestamp. -/
inductive Value where
  | vNull
  | vBool (b : Bool)
  | vInt (n : Int)
  | vFloat (x : Int)
  | vStr (s : String)
  | vArr (elems : List Value)
  | vObj (fields : List (String × Value))
  | vFiles (count : Nat)
  | vDate (t : Int)

/-- The data tree under validation: `map[string]interface{}`. -/
def DataTree := List (String × Value)

/-- Key lookup that distinguishes a missing key from a stored value
(Go's `val, ok := data[k]` form). -/
def lookupTree : DataTree → String → Option Value
  | [], _ => none
  | (k, v) :: rest, key => if k = key then some v else lookupTree rest key

/-- Go map read `data[k]` on a `map[string]interface{}`: a missing key
reads as the `nil` interface. -/
def goGet (data : DataTree) (key : String) : Value :=
  match lookupTree data key with
  | some v => v
  | none => Value.vNull

/-- Go `delete(data, k)`. -/
def delKey : DataTree → String → DataTree
  | [], _ => []
  | (k, v) :: rest, key =>
    if k = key then delKey rest key else (k, v) :: delKey rest key

/-- Go map write `data[k] = v`. -/
def setKey : DataTree → String → Value → DataTree
  | [], key, val => [(key, val)]
  | (k, v) :: rest, key, val =>
    if k = key then (k, val) :: rest else (k, v) :: setKey rest key val

/-- `Value.isNull v` is Go's `v == nil` on an `interface{}` read from the
data tree. -/
def Value.isNull : Value → Bool
  | Value.vNull => true
  | _ => false

/-- `getFieldType` (validator.go, lines 239-254): the non-technical type
of a value.  Go inspects the reflect kind: int/uint/float kinds (runes
included) are "numeric", `string` is "string", a slice is "array" unless
its concrete type is `[]filesystem.File` ("file"); everything else
(bools, maps, nil, time.Time structs, ...) is "unsupported". -/
def getFieldType : Value → String
  | Value.vInt _ => "numeric"
  | Value.vFloat _ => "numeric"
  | Value.vStr _ => "string"
  | Value.vArr _ => "array"
  | Value.vFiles _ => "file"
  | _ => "unsupported"

/-- `GetFieldType` (validator.go, line 235). -/
def GetFieldType (value : Value) : String :=
  getFieldType value

/-- `Rule` (validator.go, line 19): a rule behavior receives the field
name, the value under test, the parameters and the data tree; it may
mutate the tree (type coercion), so the model returns the pass flag
together with the updated tree. -/
def RuleFn := String → Value → List String → DataTree → Bool × DataTree

/-- The process-wide registry globals `validationRules` and
`typeDependentMessageRules` (validator.go, lines 27-33). -/
structure Registry where
  validationRules : List (String × RuleFn)
  typeDependentMessageRules : List String

/-- Lookup in the `validationRules` map. -/
def lookupRule : List (String × RuleFn) → String → Option RuleFn
  | [], _ => none
  | (k, v) :: rest, name => if k = name then some v else lookupRule rest name

/-- Modelled from the spec: decimal-number syntax accepted by the numeric
rule's string conversion ("the numeric rule converts the data to float64
if it is a string", validator.go line 18).  A number is an optional minus
sign followed by characters that are digits with at most one decimal
point and at least one digit.  The carried integer payload (digits with
the point ignored) is never inspected by any claim. -/
def numericBody (cs : List Char) : Bool :=
  cs.all (fun c => c.isDigit || c == '.') &&
    decide ((cs.filter (fun c => c == '.')).length ≤ 1) &&
    cs.any Char.isDigit

/-- Modelled from the spec: parse a numeric string (see `numericBody`). -/
def parseNumericString (s : String) : Option Int :=
  match s.data with
  | [] => none
  | cs =>
    let neg := match cs with
      | '-' :: _ => true
      | _ => false
    let body := match cs with
      | '-' :: r => r
      | r => r
    if numericBody body then
      let n : Nat := (body.filter Char.isDigit).foldl (fun a c => a * 10 + (c.toNat - 48)) 0
      some (if neg then -(n : Int) else (n : Int))
    else none

/-- Modelled from the spec: the `required` rule behavior (not under
`src/`).  Per §4.5 step 2 and the §8 examples, the check fails when the
field is absent from the tree (a deleted `nil` field reads as absent),
when it holds an empty string, or when it holds an empty collection; a
key present with the `nil` value (retained by `nullable`) passes. -/
def validateRequired : RuleFn := fun field _value _params form =>
  match lookupTree form field with
  | some (Value.vStr s) => (!(s = ""), form)
  | some (Value.vArr elems) => (!elems.isEmpty, form)
  | some _ => (true, form)
  | none => (false, form)

/-- Modelled from the spec: the `numeric` rule behavior (not under
`src/`).  Numeric values pass; a string passes iff it parses as a number,
in which case it is coerced in place to a float (validator.go line 18);
everything else fails. -/
def validateNumeric : RuleFn := fun field value _params form =>
  match value with
  | Value.vInt _ => (true, form)
  | Value.vFloat _ => (true, form)
  | Value.vStr s =>
    match parseNumericString s with
    | some x => (true, setKey form field (Value.vFloat x))
    | none => (false, form)
  | _ => (false, form)

/-- Modelled from the spec: the `min` rule behavior (not under `src/`).
Type-dependent: for a string, its length must be at least the first
parameter; for a numeric value, the value itself; for an array, its
element count; unsupported types fail. -/
def validateMin : RuleFn := fun _field value params form =>
  match params.head? with
  | none => (false, form)
  | some p =>
    match (if p.data.all Char.isDigit && !p.data.isEmpty then
             some (p.data.foldl (fun a c => a * 10 + (c.toNat - 48)) 0)
           else none : Option Nat) with
    | none => (false, form)
    | some m =>
      match value with
      | Value.vStr s => (decide (m ≤ s.length), form)
      | Value.vInt n => (decide ((m : Int) ≤ n), form)
      | Value.vArr elems => (decide (m ≤ elems.length), form)
      | _ => (false, form)

/-- Modelled from the spec: the `array` rule behavior (not under `src/`):
passes iff the value's field type is "array". -/
def validateArray : RuleFn := fun _field value _params form =>
  (getFieldType value == "array", form)

/-- Modelled from the spec: concrete rule behaviors other than
`required`, `numeric`, `min` and `array` are out-of-scope collaborators
(spec §1); only their registry NAMES matter here (rule-token parsing
checks name existence).  They are modelled as always-passing behaviors
and are never invoked by any claim. -/
def otherRule : RuleFn := fun _field _value _params form => (true, form)

/-- The registry as populated by `init()` (validator.go, lines 35-102). -/
def initRegistry : Registry :=
  { validationRules :=
      [("required", validateRequired),
       ("numeric", validateNumeric),
       ("integer", otherRule),
       ("min", validateMin),
       ("max", otherRule),
       ("between", otherRule),
       ("greater_than", otherRule),
       ("greater_than_equal", otherRule),
       ("lower_than", otherRule),
       ("lower_than_equal", otherRule),
       ("string", otherRule),
       ("array", validateArray),
       ("distinct", otherRule),
       ("digits", otherRule),
       ("regex", otherRule),
       ("email", otherRule),
       ("size", otherRule),
       ("alpha", otherRule),
       ("alpha_dash", otherRule),
       ("alpha_num", otherRule),
       ("starts_with", otherRule),
       ("ends_with", otherRule),
       ("in", otherRule),
       ("not_in", otherRule),
       ("in_array", otherRule),
       ("not_in_array", otherRule),
       ("timezone", otherRule),
       ("ip", otherRule),
       ("ipv4", otherRule),
       ("ipv6", otherRule),
       ("json", otherRule),
       ("url", otherRule),
       ("uuid", otherRule),
       ("bool", otherRule),
       ("same", otherRule),
       ("different", otherRule),
       ("confirmed", otherRule),
       ("file", otherRule),
       ("mime", otherRule),
       ("image", otherRule),
       ("extension", otherRule),
       ("count", otherRule),
       ("count_min", otherRule),
       ("count_max", otherRule),
       ("count_between", otherRule),
       ("date", otherRule),
       ("before", otherRule),
       ("before_equal", otherRule),
       ("after", otherRule),
       ("after_equal", otherRule),
       ("date_equals", otherRule),
       ("date_between", otherRule)],
    typeDependentMessageRules :=
      ["min", "max", "between", "size",
       "greater_than", "greater_than_equal",
       "lower_than", "lower_than_equal"] }

/-- `AddRule` (validator.go, lines 111-120): panics (`none`) when the
name is already registered, otherwise extends the registry, also marking
the rule type-dependent when requested. -/
def AddRule (name : String) (typeDependentMessage : Bool) (rule : RuleFn)
    (reg : Registry) : Option Registry :=
  if (lookupRule reg.validationRules name).isSome then none
  else some
    { validationRules := reg.validationRules ++ [(name, rule)],
      typeDependentMessageRules :=
        if typeDependentMessage then reg.typeDependentMessageRules ++ [name]
        else reg.typeDependentMessageRules }

/-- `isTypeDependent` (validator.go, line 256): `helper.Contains` over
the `typeDependentMessageRules` global. -/
def isTypeDependent (reg : Registry) (rule : String) : Bool :=
  reg.typeDependentMessageRules.contains rule

/-- `isRequired` (validator.go, line 264). -/
def isRequired (field : List String) : Bool :=
  field.contains "required"

/-- `isNullable` (validator.go, line 268). -/
def isNullable (field : List String) : Bool :=
  field.contains "nullable"

/-- `isArray` (validator.go, line 272). -/
def isArray (field : List String) : Bool :=
  field.contains "array"

/-- Index of the first `:` in the token (`strings.Index(rule, ":")`). -/
def idxOfColon : List Char → Option Nat
  | [] => none
  | c :: cs => if c = ':' then some 0 else (idxOfColon cs).map (· + 1)

/-- `strings.Split(s, ",")`: splitting always yields at least one piece
(the empty string splits to one empty piece). -/
def splitComma : List Char → List (List Char)
  | [] => [[]]
  | c :: cs =>
    let r := splitComma cs
    if c = ',' then [] :: r
    else
      match r with
      | [] => [[c]]
      | h :: t => (c :: h) :: t

/-- Shared tail of `parseRule`: strip the leading `>` marker and resolve
the name against the registry.  An empty candidate name models the Go
index-out-of-range panic on `ruleName[0]`. -/
def resolveRuleName (reg : Registry) (nameChars : List Char)
    (params : List String) : Option (String × Bool × List String) :=
  match nameChars with
  | [] => none
  | c :: rest =>
    let ruleName := if c = '>' then String.mk rest else String.mk (c :: rest)
    let validatesArray := c = '>'
    if (lookupRule reg.validationRules ruleName).isSome then
      some (ruleName, validatesArray, params)
    else none

/-- `parseRule` (validator.go, lines 276-301): locate the first `:`;
absent separator means zero parameters and the token must then contain
no `,` (panic otherwise); otherwise the text after `:` is comma-split
into parameters.  A leading `>` marks per-element application.  An
unregistered name panics.  `none` models every panic. -/
def parseRule (reg : Registry) (rule : String) : Option (String × Bool × List String) :=
  let cs := rule.data
  match idxOfColon cs with
  | none =>
    if (cs.filter (fun c => c = ',')).length > 0 then none
    else resolveRuleName reg cs []
  | some i =>
    resolveRuleName reg (cs.take i) ((splitComma (cs.drop (i + 1))).map String.mk)

/-- The message lookup key built by `getMessage` (validator.go, lines
214-225): `"validation.rules." + rule`, then `"." + fieldType` when the
rule is type-dependent, then `".array"` when the check ran with array
semantics. -/
def getMessageKey (reg : Registry) (rule : String) (value : Value)
    (inArray : Bool) : String :=
  let langEntry := "validation.rules." ++ rule
  let langEntry :=
    if isTypeDependent reg rule then langEntry ++ "." ++ getFieldType value
    else langEntry
  if inArray then langEntry ++ ".array" else langEntry

/-- `getMessage` (validator.go, line 214): the engine computes the key
and delegates storage to the external `lang.Get` collaborator `g`. -/
def getMessage (reg : Registry) (g : String → String → String) (rule : String)
    (value : Value) (language : String) (inArray : Bool) : String :=
  g language (getMessageKey reg rule value inArray)

/-- Modelled from the spec: `processPlaceholders` is not under `src/`;
per §6.7 it substitutes placeholder tokens into the looked-up template,
the universal `:field` token with the field name. -/
def processPlaceholders (fieldName _ruleName : String) (_params : List String)
    (message _language : String) : String :=
  message.replace ":field" fieldName

/-- `Value.isSlice v` is Go's `reflect.ValueOf(v).Kind() == slice`
(a `[]filesystem.File` value is also a slice). -/
def Value.isSlice : Value → Bool
  | Value.vArr _ => true
  | Value.vFiles _ => true
  | _ => false

/-- `convertArray` (validator.go, lines 200-212): on a non-JSON request,
when the rule list requests `array` and the value is not already a
slice, wrap it into a single-element slice.  Wrapping the `nil`
interface panics in Go (`reflect.SliceOf(nil)`), modelled by `none`. -/
def convertArray (isJSON : Bool) (fieldName : String) (field : List String)
    (data : DataTree) : Option DataTree :=
  if !isJSON then
    let val := goGet data fieldName
    if isArray field && !val.isSlice then
      if val.isNull then none
      else some (setKey data fieldName (Value.vArr [val]))
    else some data
  else some data

/-- The element loop of `validateRuleInArray` (validator.go, lines
185-196): run the rule on each element with a throwaway single-entry
tree `{fieldName: element}`; on the first failing element stop and
return it, leaving it and the later elements untouched; on success write
the (possibly coerced) value from the throwaway tree back into the
slice. -/
def runRuleOnElems (r : RuleFn) (fieldName : String) (params : List String) :
    List Value → Option Value × List Value
  | [] => (none, [])
  | x :: xs =>
    let tmpData : DataTree := [(fieldName, x)]
    let out := r fieldName x params tmpData
    if out.1 then
      let updated := goGet out.2 fieldName
      let rest := runRuleOnElems r fieldName params xs
      (rest.1, updated :: rest.2)
    else (some x, x :: xs)

/-- `validateRuleInArray` (validator.go, lines 180-198): panics (`none`)
when the field's value is not of field type "array"; otherwise runs the
rule per element (see `runRuleOnElems`) and returns the first failing
element, if any, together with the updated tree. -/
def validateRuleInArray (reg : Registry) (ruleName fieldName : String)
    (data : DataTree) (params : List String) : Option (Option Value × DataTree) :=
  match goGet data fieldName with
  | Value.vArr xs =>
    match lookupRule reg.validationRules ruleName with
    | some r =>
      let out := runRuleOnElems r fieldName params xs
      some (out.1, setKey data fieldName (Value.vArr out.2))
    | none => none
  | _ => none

/-- The per-field rule loop of `validate` (validator.go, lines 153-175):
the `nullable` token stops processing when the value is `nil` and is a
no-op otherwise; a `>`-marked token runs per element and appends one
composed message built from the failing element; a plain token runs the
rule on the field's value with the full tree and appends one composed
message on failure.  `none` models a panic (parse failure or array
semantics on a non-array). -/
def applyRules (reg : Registry) (g : String → String → String)
    (language fieldName : String) :
    List String → DataTree → Option (List String × DataTree)
  | [], data => some ([], data)
  | rule :: rest, data =>
    if rule = "nullable" then
      if (goGet data fieldName).isNull then some ([], data)
      else applyRules reg g language fieldName rest data
    else
      match parseRule reg rule with
      | none => none
      | some (ruleName, validatesArray, params) =>
        if validatesArray then
          match validateRuleInArray reg ruleName fieldName data params with
          | none => none
          | some (errVal, data1) =>
            match errVal with
            | some ev =>
              let msg := processPlaceholders fieldName ruleName params
                (getMessage reg g ruleName ev language validatesArray) language
              (applyRules reg g language fieldName rest data1).map
                (fun out => (msg :: out.1, out.2))
            | none => applyRules reg g language fieldName rest data1
        else
          match lookupRule reg.validationRules ruleName with
          | none => none
          | some r =>
            let out := r fieldName (goGet data fieldName) params data
            if out.1 then applyRules reg g language fieldName rest out.2
            else
              let msg := processPlaceholders fieldName ruleName params
                (getMessage reg g ruleName (goGet out.2 fieldName) language validatesArray)
                language
              (applyRules reg g language fieldName rest out.2).map
                (fun o => (msg :: o.1, o.2))

/-- The validation error report `Errors` (validator.go, line 25):
field name to ordered messages; a field gets an entry iff at least one
message was appended for it. -/
def Errors := List (String × List String)

/-- The per-field loop of `validate` (validator.go, lines 142-176):
delete a `nil` non-nullable field; skip a non-required field whose
required-check fails; normalize single values into arrays for
url-encoded requests; then run the rules. -/
def validateFields (reg : Registry) (g : String → String → String)
    (isJSON : Bool) (language : String) :
    List (String × List String) → DataTree → Option (Errors × DataTree)
  | [], data => some ([], data)
  | (fieldName, field) :: rest, data =>
    let data1 :=
      if !isNullable field && (goGet data fieldName).isNull then
        delKey data fieldName
      else data
    if !isRequired field && !(validateRequired fieldName (goGet data1 fieldName) [] data1).1 then
      validateFields reg g isJSON language rest data1
    else
      match convertArray isJSON fieldName field data1 with
      | none => none
      | some data2 =>
        match applyRules reg g language fieldName field data2 with
        | none => none
        | some (msgs, data3) =>
          (validateFields reg g isJSON language rest data3).map
            (fun out => (if msgs.isEmpty then out.1 else (fieldName, msgs) :: out.1, out.2))

/-- A rule set (validator.go, line 22), with a fixed iteration order in
place of Go's unordered map range. -/
def RuleSet := List (String × List String)

/-- `validate` (validator.go, lines 138-178): derives array-conversion
semantics from the Content-Type header and runs the per-field loop,
accumulating errors.  `none` models a panic. -/
def validate (reg : Registry) (g : String → String → String)
    (contentType : String) (data : DataTree) (rules : RuleSet)
    (language : String) : Option (Errors × DataTree) :=
  let isJSON := contentType = "application/json"
  validateFields reg g isJSON language rules data

/-- `Validate` (validator.go, lines 124-136): on a `nil` data tree
(`Option.none` input) no rule is evaluated and a single synthetic
"error" entry is returned, "Malformed JSON" for a JSON Content-Type and
"Malformed request" otherwise; on a real tree it delegates to
`validate`. -/
def Validate (reg : Registry) (g : String → String → String)
    (contentType : String) (data : Option DataTree) (rules : RuleSet)
    (language : String) : Option (Errors × Option DataTree) :=
  let malformedMessage :=
    if contentType = "application/json" then "Malformed JSON"
    else "Malformed request"
  match data with
  | none => some ([("error", [malformedMessage])], none)
  | some d =>
    (validate reg g contentType d rules language).map
      (fun out => (out.1, some out.2))

/-- Modelled from the spec: a parsed field-path segment (§4.3) — a plain
key, or a key whose trailing `[]` wildcard fans out over every element
of the addressed collection. -/
inductive PathSegment where
  | key (name : String)
  | keyAll (name : String)

/-- Split a path on `.` separators. -/
def splitDots : List Char → List (List Char)
  | [] => [[]]
  | c :: cs =>
    let r := splitDots cs
    if c = '.' then [] :: r
    else
      match r with
      | [] => [[c]]
      | h :: t => (c :: h) :: t

/-- A well-formed segment name: non-empty, without brackets. -/
def okSegName (cs : List Char) : Bool :=
  !cs.isEmpty && cs.all (fun c => !(c = '[' || c = ']'))

/-- Modelled from the spec: parse one dotted-path component, recognizing
the trailing `[]` wildcard marker (§4.3); malformed components (empty
name, stray bracket) are a fatal path-syntax error (`none`). -/
def parseSegment (cs : List Char) : Option PathSegment :=
  match cs.reverse with
  | ']' :: '[' :: rest =>
    let name := rest.reverse
    if okSegName name then some (PathSegment.keyAll (String.mk name)) else none
  | _ => if okSegName cs then some (PathSegment.key (String.mk cs)) else none

/-- Modelled from the spec: parse a dotted/bracketed field path (§4.3),
e.g. `"object.field[]"`; `none` models the fatal failure on syntax
errors such as `"invalid[path."`. -/
def parsePath (p : String) : Option (List PathSegment) :=
  (splitDots p.data).foldr
    (fun seg acc =>
      match parseSegment seg, acc with
      | some s, some l => some (s :: l)
      | _, _ => none)
    (some [])

/-- Modelled from the spec: resolve a parsed path against the data tree
(§4.3), returning the addressed values; a wildcard segment fans out over
every element of the addressed collection.  Unresolvable paths (missing
key, wildcard over a non-collection, traversal into a non-container)
yield `none`. -/
def resolvePath : List PathSegment → Value → Option (List Value)
  | [], v => some [v]
  | PathSegment.key k :: rest, Value.vObj fields =>
    (match lookupTree fields k with
     | some v => resolvePath rest v
     | none => none)
  | PathSegment.keyAll k :: rest, Value.vObj fields =>
    (match lookupTree fields k with
     | some (Value.vArr elems) =>
       elems.foldr
         (fun e acc =>
           match resolvePath rest e, acc with
           | some vs, some accv => some (vs ++ accv)
           | _, _ => none)
         (some [])
     | _ => none)
  | _, _ => none

/-- Modelled from the spec: the per-evaluation validation context of the
validator protocol (§3, §4.4), holding the value under test and a
back-reference to the full data tree. -/
structure ContextV5 where
  value : Value
  data : Value

/-- Modelled from the spec: a date-comparison validator constructed with
a fixed reference instant (§4.4) — `After` (strict) or `AfterEqual`. -/
structure DateComparisonValidator where
  name : String
  strict : Bool
  ref : Int

/-- Modelled from the spec: `After(ref)`, the strict after-date
validator. -/
def After (ref : Int) : DateComparisonValidator :=
  { name := "after", strict := true, ref := ref }

/-- Modelled from the spec: `AfterEqual(ref)`, the non-strict after-date
validator. -/
def AfterEqual (ref : Int) : DateComparisonValidator :=
  { name := "after_equal", strict := false, ref := ref }

/-- Modelled from the spec: `Validate` of the fixed-reference date
validators (§4.4): the candidate must be a concrete date value — any
other type is an automatic fail, not a fatal failure — and must be
strictly after (strict variant) or not before (equal variant) the
reference. -/
def DateComparisonValidator.Validate (v : DateComparisonValidator)
    (ctx : ContextV5) : Bool :=
  match ctx.value with
  | Value.vDate t => if v.strict then decide (v.ref < t) else decide (v.ref ≤ t)
  | _ => false

/-- Modelled from the spec: a date-comparison validator constructed with
a reference field path (§4.4); the path is parsed at construction time
(fatal on syntax error) but resolved at validation time. -/
structure DateFieldComparisonValidator where
  name : String
  strict : Bool
  path : List PathSegment

/-- Modelled from the spec: `AfterField(path)`; `none` models the fatal
construction failure on a malformed path. -/
def AfterField (path : String) : Option DateFieldComparisonValidator :=
  (parsePath path).map
    (fun segs => { name := "after", strict := true, path := segs })

/-- Modelled from the spec: `AfterEqualField(path)`. -/
def AfterEqualField (path : String) : Option DateFieldComparisonValidator :=
  (parsePath path).map
    (fun segs => { name := "after_equal", strict := false, path := segs })

/-- Modelled from the spec: `Validate` of the field-referencing date
validators (§4.4): the reference path is resolved through the field
path resolver against the context's current data tree at validation
time; a wildcard reference broadcasts the comparison against every
resolved element (the candidate must compare against all of them); a
non-date candidate or an unresolvable or non-date reference fails
without a fatal error. -/
def DateFieldComparisonValidator.Validate (v : DateFieldComparisonValidator)
    (ctx : ContextV5) : Bool :=
  match ctx.value with
  | Value.vDate t =>
    (match resolvePath v.path ctx.data with
     | some refs =>
       refs.all
         (fun r =>
           match r with
           | Value.vDate u => if v.strict then decide (u < t) else decide (u ≤ t)
           | _ => false)
     | none => false)
  | _ => false

/-- The data tree of the wildcard-reference scenario: two reference
instants stored at `object.field`. -/
def twoRefTree (t1 t2 : Int) : Value :=
  Value.vObj [("object", Value.vObj [("field", Value.vArr [Value.vDate t1, Value.vDate t2])])]

/-- The data tree of the single-reference scenario. -/
def oneRefTree (t1 : Int) : Value :=
  Value.vObj [("object", Value.vObj [("field", Value.vArr [Value.vDate t1])])]

/-- The parsed form of the wildcard reference path `"object.field[]"`. -/
def afterFieldPath : List PathSegment :=
  [PathSegment.key "object", PathSegment.keyAll "field"]

/-- A two-field data tree used to observe which tree a rule behavior is
invoked with. -/
def probeTree : DataTree :=
  [("a", Value.vArr [Value.vInt 1]), ("b", Value.vInt 2)]

/-- Recognizes exactly `probeTree`. -/
def isProbeTree (d : DataTree) : Bool :=
  match d with
  | [(k1, Value.vArr [Value.vInt n1]), (k2, Value.vInt n2)] =>
    k1 == "a" && n1 == 1 && k2 == "b" && n2 == 2
  | _ => false

/-- A rule behavior that passes exactly when it is invoked with the full
two-field tree `probeTree`. -/
def probeRule : RuleFn := fun _field _value _params d => (isProbeTree d, d)

/-- A rule behavior that passes exactly when it is invoked with a
single-entry tree mapping the field name to the element `1`. -/
def elemProbeRule : RuleFn := fun field _value _params d =>
  (match d with
   | [(k, Value.vInt n)] => k == field && n == 1
   | _ => false,
   d)

/-- The part of a `validateRuleInArray` outcome that is about the field
itself: the failing element, if any, and the field's updated value. -/
def arrayRuleView (o : Option (Option Value × DataTree)) (field : String) :
    Option (Option Value × Value) :=
  o.map (fun p => (p.1, goGet p.2 field))

theorem lookupTree_delKey (d : DataTree) (k : String) :
    lookupTree (delKey d k) k = none := by
  induction d with
  | nil => rfl
  | cons hd tl ih =>
    obtain ⟨k2, v2⟩ := hd
    by_cases h : k2 = k
    · simpa [delKey, h] using ih
    · simpa [delKey, lookupTree, h] using ih

theorem lookupTree_setKey (d : DataTree) (k : String) (v : Value) :
    lookupTree (setKey d k v) k = some v := by
  induction d with
  | nil => simp [setKey, lookupTree]
  | cons hd tl ih =>
    obtain ⟨k2, v2⟩ := hd
    by_cases h : k2 = k
    · simp [setKey, h, lookupTree]
    · simpa [setKey, h, lookupTree] using ih

theorem goGet_setKey (d : DataTree) (k : String) (v : Value) :
    goGet (setKey d k v) k = v := by
  simp [goGet, lookupTree_setKey]

theorem lookupRule_append (l : List (String × RuleFn)) (k : String) (v : RuleFn)
    (h : lookupRule l k = none) : lookupRule (l ++ [(k, v)]) k = some v := by
  induction l with
  | nil => simp [lookupRule]
  | cons hd tl ih =>
    obtain ⟨k2, v2⟩ := hd
    by_cases hk : k2 = k
    · simp [lookupRule, hk] at h
    · simp only [lookupRule, hk, List.cons_append, if_false] at h ⊢
      · exact ih h

theorem lookupRule_property (P : RuleFn → Prop) :
    ∀ (l : List (String × RuleFn)), (∀ p ∈ l, P p.2) →
      ∀ name r, lookupRule l name = some r → P r := by
  intro l
  induction l with
  | nil => intro _ name r h; exact Option.noConfusion h
  | cons hd tl ih =>
    intro hall name r h
    obtain ⟨k, v⟩ := hd
    by_cases hk : k = name
    · simp only [lookupRule, if_pos hk] at h
      injection h with h2
      subst h2
      exact hall ⟨k, v⟩ (List.mem_cons_self _ _)
    · simp only [lookupRule, if_neg hk] at h
      exact ih (fun p hp => hall p (List.mem_cons_of_mem _ hp)) name r h

theorem initRegistry_behaviors_five :
    ∀ p ∈ initRegistry.validationRules,
      p.2 = validateRequired ∨ p.2 = validateNumeric ∨ p.2 = validateMin ∨
        p.2 = validateArray ∨ p.2 = otherRule := by
  intro p hp
  dsimp only [initRegistry] at hp
  simp only [List.mem_cons, List.not_mem_nil, or_false] at hp
  rcases hp with h|h|h|h|h|h|h|h|h|h|h|h|h|h|h|h|h|h|h|h|h|h|h|h|h|h|h|h|h|h|h|h|h|h|h|h|h|h|h|h|h|h|h|h|h|h|h|h|h|h|h|h
  all_goals (subst h; simp)

theorem initRegistry_behavior_cases (name : String) (r : RuleFn)
    (h : lookupRule initRegistry.validationRules name = some r) :
    r = validateRequired ∨ r = validateNumeric ∨ r = validateMin ∨
      r = validateArray ∨ r = otherRule :=
  lookupRule_property
    (fun r2 => r2 = validateRequired ∨ r2 = validateNumeric ∨ r2 = validateMin ∨
      r2 = validateArray ∨ r2 = otherRule)
    initRegistry.validationRules initRegistry_behaviors_five name r h

theorem ruleFn_null_no_mutation (r : RuleFn)
    (h : r = validateRequired ∨ r = validateNumeric ∨ r = validateMin ∨
      r = validateArray ∨ r = otherRule)
    (field : String) (params : List String) (form : DataTree) :
    (r field Value.vNull params form).2 = form := by
  rcases h with h | h | h | h | h <;> subst h
  · unfold validateRequired
    cases hl : lookupTree form field
    · rfl
    · rename_i v
      cases v <;> rfl
  · rfl
  · unfold validateMin
    cases params.head?
    · rfl
    · rename_i p
      dsimp only
      by_cases hc : (p.data.all Char.isDigit && !p.data.isEmpty) = true
      · rw [if_pos hc]
      · rw [if_neg hc]
  · rfl
  · rfl

theorem convertArray_at_null (isJSON : Bool) (f : String) (field : List String)
    (data d2 : DataTree) (h : goGet data f = Value.vNull)
    (hc : convertArray isJSON f field data = some d2) : d2 = data := by
  unfold convertArray at hc
  rw [h] at hc
  cases isJSON
  · simp only [Bool.not_false, if_true] at hc
    cases hA : isArray field
    · rw [hA] at hc
      simp at hc
      exact hc.symm
    · rw [hA] at hc
      simp [Value.isSlice, Value.isNull] at hc
  · simp at hc
    exact hc.symm

theorem applyRules_null_fixes (g : String → String → String) (lang f : String) :
    ∀ (rs : List String) (data : DataTree) (msgs : List String) (d3 : DataTree),
    goGet data f = Value.vNull →
    applyRules initRegistry g lang f rs data = some (msgs, d3) → d3 = data := by
  intro rs
  induction rs with
  | nil =>
    intro data msgs d3 _ h
    simp only [applyRules, Option.some.injEq, Prod.mk.injEq] at h
    exact h.2.symm
  | cons rule rest ih =>
    intro data msgs d3 hg h
    simp only [applyRules] at h
    by_cases hr : rule = "nullable"
    · rw [if_pos hr, hg] at h
      simp only [Value.isNull, if_true, Option.some.injEq, Prod.mk.injEq] at h
      exact h.2.symm
    · rw [if_neg hr] at h
      cases hp : parseRule initRegistry rule
      · rw [hp] at h
        exact Option.noConfusion h
      · rename_i tpl
        obtain ⟨rn, va, ps⟩ := tpl
        rw [hp] at h
        cases va
        · dsimp only at h
          cases hl : lookupRule initRegistry.validationRules rn
          · rw [hl] at h
            exact Option.noConfusion h
          · rename_i r
            rw [hl] at h
            dsimp only at h
            have hnm : (r f (goGet data f) ps data).2 = data := by
              rw [hg]
              exact ruleFn_null_no_mutation r (initRegistry_behavior_cases rn r hl) f ps data
            rw [hnm] at h
            cases h1 : (r f (goGet data f) ps data).1
            · rw [h1] at h
              simp only [Bool.false_eq_true, if_false] at h
              cases ha : applyRules initRegistry g lang f rest data
              · rw [ha] at h
                exact Option.noConfusion h
              · rename_i o
                rw [ha] at h
                simp only [Option.map, Option.some.injEq, Prod.mk.injEq] at h
                rw [← h.2]
                exact ih data o.1 o.2 hg ha
            · rw [h1] at h
              simp only [Bool.false_eq_true, eq_self_iff_true, if_false, if_true] at h
              exact ih data msgs d3 hg h
        · dsimp only at h
          have harr : validateRuleInArray initRegistry rn f data ps = none := by
            unfold validateRuleInArray
            rw [hg]
          rw [harr] at h
          exact Option.noConfusion h

theorem validateFields_single_nil (g : String → String → String) (isJSON : Bool)
    (lang f : String) (rs : List String) (data : DataTree) (errs : Errors) (d2 : DataTree)
    (hnul : isNullable rs = false) (hnil : (goGet data f).isNull = true)
    (hval : validateFields initRegistry g isJSON lang [(f, rs)] data = some (errs, d2)) :
    lookupTree d2 f = none := by
  simp only [validateFields] at hval
  rw [hnul, hnil] at hval
  simp only [Bool.not_false, Bool.and_self, eq_self_iff_true, if_true] at hval
  have hreq0 : (validateRequired f (goGet (delKey data f) f) [] (delKey data f)).1 = false := by
    unfold validateRequired
    rw [lookupTree_delKey]
  rw [hreq0] at hval
  simp only [Bool.not_false, Bool.and_true] at hval
  have hg2 : goGet (delKey data f) f = Value.vNull := by
    unfold goGet
    rw [lookupTree_delKey]
  cases hreqb : isRequired rs
  · rw [hreqb] at hval
    simp only [Bool.not_false, eq_self_iff_true, if_true, Option.some.injEq,
      Prod.mk.injEq] at hval
    rw [← hval.2]
    exact lookupTree_delKey data f
  · rw [hreqb] at hval
    simp only [Bool.not_true, Bool.false_eq_true, if_false] at hval
    cases hc : convertArray isJSON f rs (delKey data f)
    · rw [hc] at hval
      exact Option.noConfusion hval
    · rename_i data2
      have hd2 : data2 = delKey data f :=
        convertArray_at_null isJSON f rs (delKey data f) data2 hg2 hc
      subst hd2
      rw [hc] at hval
      dsimp only at hval
      cases ha : applyRules initRegistry g lang f rs (delKey data f)
      · rw [ha] at hval
        exact Option.noConfusion hval
      · rename_i pr
        obtain ⟨msgs, d3⟩ := pr
        have h3 : d3 = delKey data f :=
          applyRules_null_fixes g lang f rs (delKey data f) msgs d3 hg2 ha
        rw [ha] at hval
        dsimp only at hval
        simp only [Option.map, Option.some.injEq, Prod.mk.injEq] at hval
        rw [← hval.2, h3]
        exact lookupTree_delKey data f

theorem validateFields_single_nullable (g : String → String → String) (isJSON : Bool)
    (lang f : String) (rs : List String) (data : DataTree) (errs : Errors) (d2 : DataTree)
    (hnul : isNullable rs = true) (hpres : lookupTree data f = some Value.vNull)
    (hval : validateFields initRegistry g isJSON lang [(f, rs)] data = some (errs, d2)) :
    lookupTree d2 f = some Value.vNull := by
  have hg : goGet data f = Value.vNull := by
    unfold goGet
    rw [hpres]
  simp only [validateFields] at hval
  rw [hnul] at hval
  simp only [Bool.not_true, Bool.false_and, Bool.false_eq_true, if_false] at hval
  have hreq1 : (validateRequired f (goGet data f) [] data).1 = true := by
    unfold validateRequired
    rw [hpres]
  rw [hreq1] at hval
  simp only [Bool.not_true, Bool.and_false, Bool.false_eq_true, if_false] at hval
  cases hc : convertArray isJSON f rs data
  · rw [hc] at hval
    exact Option.noConfusion hval
  · rename_i data2
    have hd2 : data2 = data := convertArray_at_null isJSON f rs data data2 hg hc
    rw [hd2] at hc
    rw [hc] at hval
    dsimp only at hval
    cases ha : applyRules initRegistry g lang f rs data
    · rw [ha] at hval
      exact Option.noConfusion hval
    · rename_i pr
      obtain ⟨msgs, d3⟩ := pr
      have h3 : d3 = data := applyRules_null_fixes g lang f rs data msgs d3 hg ha
      rw [ha] at hval
      dsimp only at hval
      simp only [Option.map, Option.some.injEq, Prod.mk.injEq] at hval
      rw [← hval.2, h3]
      exact hpres

/-- C4: parsing `"min:5"` yields name `"min"`, parameters `["5"]` and
`appliesPerElement = false`; parsing `">min:3"` yields name `"min"`,
parameters `["3"]` and `appliesPerElement = true`; parsing
`"invalid,rule"` (comma without colon) and `"invalidrule"` (name not in
the registry) both fail fatally. -/
theorem parseRule_tokens :
    parseRule initRegistry "min:5" = some ("min", false, ["5"])
    ∧ parseRule initRegistry ">min:3" = some ("min", true, ["3"])
    ∧ parseRule initRegistry "invalid,rule" = none
    ∧ parseRule initRegistry "invalidrule" = none :=
  ⟨rfl, rfl, rfl, rfl⟩

/-- C5: the message lookup key is `"validation.rules." ++ ruleName`,
with a `"." ++ fieldType` segment exactly when the rule is
type-dependent and a fixed `".array"` suffix exactly when the check ran
with array semantics; hence, for a type-dependent rule, the key for a
numeric value always differs from the key for a string value. -/
theorem getMessage_key_composition :
    (∀ reg rule value,
      getMessageKey reg rule value true = getMessageKey reg rule value false ++ ".array")
    ∧ (∀ rule v w (inArray : Bool), isTypeDependent initRegistry rule = true →
        getFieldType v = "numeric" → getFieldType w = "string" →
        getMessageKey initRegistry rule v inArray ≠ getMessageKey initRegistry rule w inArray) := by
  constructor
  · intro reg rule value
    rfl
  · intro rule v w inArray htd hv hw heq
    unfold getMessageKey at heq
    rw [htd, hv, hw] at heq
    have hlen := congrArg String.length heq
    cases inArray <;>
      simp only [if_true, if_false, Bool.false_eq_true, String.length_append,
        show String.length "numeric" = 7 from rfl,
        show String.length "string" = 6 from rfl] at hlen <;>
      omega

/-- C5 witness: instantiated at the type-dependent rule `"min"` with a
numeric and a string value. -/
theorem getMessage_key_composition_witness :
    getMessageKey initRegistry "min" (Value.vInt 42) false
      ≠ getMessageKey initRegistry "min" (Value.vStr "test") false :=
  getMessage_key_composition.2 "min" (Value.vInt 42) (Value.vStr "test") false rfl rfl rfl

/-- C10: validating a `nil` data tree never panics and evaluates no
rule: for every registry, rule set and locale it returns the single
synthetic `"error"` entry with exactly one message, `"Malformed JSON"`
when the request's Content-Type is `"application/json"` and
`"Malformed request"` otherwise. -/
theorem validate_nil_data_malformed (reg : Registry) (g : String → String → String)
    (contentType : String) (rules : RuleSet) (language : String) :
    Validate reg g contentType none rules language =
      some ([("error",
        [if contentType = "application/json" then "Malformed JSON" else "Malformed request"])],
        none) :=
  rfl

/-- C1: with data tree `nullField ↦ nil` and rule list
`["required", "nullable", "numeric"]`, validation leaves the key present
with value `nil` and reports no error (the `nullable` token consumes the
`nil` value and stops the remaining rules); with value `"test"` the key
remains and exactly one error message is recorded for the field (the
numeric check fails). -/
theorem validate_nullable_short_circuit (g : String → String → String) :
    validate initRegistry g "application/json" [("nullField", Value.vNull)]
        [("nullField", ["required", "nullable", "numeric"])] "en-US"
      = some ([], [("nullField", Value.vNull)])
    ∧ ∃ msg,
        validate initRegistry g "application/json" [("nullField", Value.vStr "test")]
            [("nullField", ["required", "nullable", "numeric"])] "en-US"
          = some ([("nullField", [msg])], [("nullField", Value.vStr "test")]) :=
  ⟨rfl, ⟨_, rfl⟩⟩

/-- C2: a per-element (`>`-marked) rule panics when the field's value is
not an array, and otherwise runs the rule on the elements in order,
stopping at the first failing element and yielding exactly one composed
message for the whole field: `["hello", "world"]` with `">min:3"` passes,
`["hi", ",", "there"]` with `">min:3"` records exactly one error, the
failing element being `"hi"` (the first one). -/
theorem validate_array_rule_per_element :
    (∀ (reg : Registry) (ruleName fieldName : String) (data : DataTree) (params : List String),
      getFieldType (goGet data fieldName) ≠ "array" →
      validateRuleInArray reg ruleName fieldName data params = none)
    ∧ validateRuleInArray initRegistry "min" "str"
        [("str", Value.vArr [Value.vStr "hi", Value.vStr ",", Value.vStr "there"])] ["3"]
      = some (some (Value.vStr "hi"),
          [("str", Value.vArr [Value.vStr "hi", Value.vStr ",", Value.vStr "there"])])
    ∧ (∀ g, validate initRegistry g "application/json"
        [("str", Value.vArr [Value.vStr "hello", Value.vStr "world"])]
        [("str", [">min:3"])] "en-US"
      = some ([], [("str", Value.vArr [Value.vStr "hello", Value.vStr "world"])]))
    ∧ (∀ g, ∃ msg, validate initRegistry g "application/json"
        [("str", Value.vArr [Value.vStr "hi", Value.vStr ",", Value.vStr "there"])]
        [("str", [">min:3"])] "en-US"
      = some ([("str", [msg])],
          [("str", Value.vArr [Value.vStr "hi", Value.vStr ",", Value.vStr "there"])])) := by
  refine ⟨?_, rfl, fun g => rfl, fun g => ⟨_, rfl⟩⟩
  intro reg ruleName fieldName data params h
  unfold validateRuleInArray
  cases hv : goGet data fieldName
  case vArr elems => rw [hv] at h; exact absurd rfl h
  all_goals rfl

/-- C2 witness: the general panic statement instantiated at a string
field checked with a per-element rule. -/
theorem validate_array_rule_per_element_witness :
    getFieldType (goGet [("str", Value.vStr "hi")] "str") ≠ "array"
    ∧ validateRuleInArray initRegistry "required" "str" [("str", Value.vStr "hi")] [] = none :=
  ⟨by decide, validate_array_rule_per_element.1 initRegistry "required" "str"
    [("str", Value.vStr "hi")] [] (by decide)⟩

/-- C3: field existence invariant: for every data tree, every locale and
content type, and every rule list, a field holding `nil` whose rule list
does not request `nullable` has its key deleted from the data tree
whenever validation completes — `required` rule lists included; a field
present with value `nil` whose rule list requests `nullable` keeps its
key and `nil` value.  Concretely, `nullField ↦ nil` with `["numeric"]`
validates to an empty error report with the key gone, and with
`["nullable", "numeric"]` the key survives. -/
theorem validate_nil_field_removal :
    (∀ (g : String → String → String) (contentType language fieldName : String)
        (field : List String) (data : DataTree) (errs : Errors) (d2 : DataTree),
      isNullable field = false → (goGet data fieldName).isNull = true →
      validate initRegistry g contentType data [(fieldName, field)] language
        = some (errs, d2) →
      lookupTree d2 fieldName = none)
    ∧ (∀ (g : String → String → String) (contentType language fieldName : String)
        (field : List String) (data : DataTree) (errs : Errors) (d2 : DataTree),
      isNullable field = true → lookupTree data fieldName = some Value.vNull →
      validate initRegistry g contentType data [(fieldName, field)] language
        = some (errs, d2) →
      lookupTree d2 fieldName = some Value.vNull)
    ∧ (∀ g, validate initRegistry g "application/json" [("nullField", Value.vNull)]
        [("nullField", ["numeric"])] "en-US" = some ([], []))
    ∧ (∀ g, validate initRegistry g "application/json" [("nullField", Value.vNull)]
        [("nullField", ["nullable", "numeric"])] "en-US"
        = some ([], [("nullField", Value.vNull)])) := by
  refine ⟨?_, ?_, fun g => rfl, fun g => rfl⟩
  · intro g ct lang f rs data errs d2 h1 h2 h3
    exact validateFields_single_nil g (decide (ct = "application/json")) lang f rs data
      errs d2 h1 h2 h3
  · intro g ct lang f rs data errs d2 h1 h2 h3
    exact validateFields_single_nullable g (decide (ct = "application/json")) lang f rs data
      errs d2 h1 h2 h3

/-- C3 witness: the deletion statement instantiated at `nullField ↦ nil`
with the `required`-containing rule list `["required"]` (one error, key
gone), and the retention statement at `["nullable", "numeric"]`. -/
theorem validate_nil_field_removal_witness :
    isNullable ["required"] = false
    ∧ (goGet [("nullField", Value.vNull)] "nullField").isNull = true
    ∧ lookupTree ([] : DataTree) "nullField" = none
    ∧ isNullable ["nullable", "numeric"] = true
    ∧ lookupTree [("nullField", Value.vNull)] "nullField" = some Value.vNull
    ∧ lookupTree [("nullField", Value.vNull)] "nullField" = some Value.vNull :=
  ⟨rfl, rfl,
    validate_nil_field_removal.1 (fun _ k => k) "application/json" "en-US" "nullField"
      ["required"] [("nullField", Value.vNull)]
      [("nullField",
        [processPlaceholders "nullField" "required" []
          (getMessage initRegistry (fun _ k => k) "required" (goGet [] "nullField")
            "en-US" false) "en-US"])]
      [] rfl rfl rfl,
    rfl, rfl,
    validate_nil_field_removal.2.1 (fun _ k => k) "application/json" "en-US" "nullField"
      ["nullable", "numeric"] [("nullField", Value.vNull)]
      [] [("nullField", Value.vNull)] rfl rfl rfl⟩

/-- C6: `After(ref)` rejects a candidate equal to the reference and
accepts exactly the candidates strictly after it; `AfterEqual(ref)`
accepts a candidate equal to the reference; both reject every
non-date-typed candidate (strings, characters, integers, floats,
booleans, slices, nil, ...) without failing fatally. -/
theorem after_validators_strictness :
    (∀ (ref : Int) (d : Value), (After ref).Validate ⟨Value.vDate ref, d⟩ = false)
    ∧ (∀ (ref t : Int) (d : Value),
        (After ref).Validate ⟨Value.vDate t, d⟩ = true ↔ ref < t)
    ∧ (∀ (ref : Int) (d : Value), (AfterEqual ref).Validate ⟨Value.vDate ref, d⟩ = true)
    ∧ (∀ (ref : Int) (v d : Value), (∀ t, v ≠ Value.vDate t) →
        (After ref).Validate ⟨v, d⟩ = false ∧ (AfterEqual ref).Validate ⟨v, d⟩ = false) := by
  refine ⟨fun ref d => ?_, fun ref t d => ?_, fun ref d => ?_, fun ref v d h => ?_⟩
  · exact decide_eq_false (lt_irrefl ref)
  · exact decide_eq_true_iff
  · exact decide_eq_true (le_refl ref)
  · cases v
    case vDate t => exact absurd rfl (h t)
    all_goals exact ⟨rfl, rfl⟩

/-- C6 witness: the non-date rejection instantiated at a string
candidate. -/
theorem after_validators_strictness_witness :
    (After 0).Validate ⟨Value.vStr "string", Value.vNull⟩ = false
    ∧ (AfterEqual 0).Validate ⟨Value.vStr "string", Value.vNull⟩ = false :=
  after_validators_strictness.2.2.2 0 (Value.vStr "string") Value.vNull
    (fun _ h => Value.noConfusion h)

/-- C7: the field-referencing strict after-date validator built from the
wildcard path `"object.field[]"` broadcasts the comparison against every
referenced element: with references `t1 < t2`, a candidate strictly
after `t2` passes and a candidate between `t1` and `t2` fails; the
reference is resolved against the current data tree at validation time
(the same constructed validator answers differently on different trees),
and a malformed path fails fatally at construction time. -/
theorem after_field_wildcard_broadcast :
    AfterField "object.field[]" = some ⟨"after", true, afterFieldPath⟩
    ∧ (∀ t1 t2 c : Int, t1 < t2 → t2 < c →
        DateFieldComparisonValidator.Validate ⟨"after", true, afterFieldPath⟩
          ⟨Value.vDate c, twoRefTree t1 t2⟩ = true)
    ∧ (∀ t1 t2 c : Int, t1 < c → c ≤ t2 →
        DateFieldComparisonValidator.Validate ⟨"after", true, afterFieldPath⟩
          ⟨Value.vDate c, twoRefTree t1 t2⟩ = false)
    ∧ DateFieldComparisonValidator.Validate ⟨"after", true, afterFieldPath⟩
        ⟨Value.vDate 150, twoRefTree 100 200⟩ = false
    ∧ DateFieldComparisonValidator.Validate ⟨"after", true, afterFieldPath⟩
        ⟨Value.vDate 150, oneRefTree 100⟩ = true
    ∧ AfterField "invalid[path." = none := by
  refine ⟨rfl, ?_, ?_, rfl, rfl, rfl⟩
  · intro t1 t2 c h1 h2
    have e : DateFieldComparisonValidator.Validate ⟨"after", true, afterFieldPath⟩
        ⟨Value.vDate c, twoRefTree t1 t2⟩
        = (decide (t1 < c) && (decide (t2 < c) && true)) := rfl
    rw [e]
    simp only [Bool.and_true, Bool.and_eq_true, decide_eq_true_eq]
    omega
  · intro t1 t2 c h1 h2
    have e : DateFieldComparisonValidator.Validate ⟨"after", true, afterFieldPath⟩
        ⟨Value.vDate c, twoRefTree t1 t2⟩
        = (decide (t1 < c) && (decide (t2 < c) && true)) := rfl
    rw [e]
    simp only [Bool.and_true, Bool.and_eq_false_iff, decide_eq_false_iff_not]
    omega

/-- C7 witness: broadcast instantiated at references `100 < 200` with
candidates `300` (passes) and `150` (fails). -/
theorem after_field_wildcard_broadcast_witness :
    ((100 : Int) < 200 ∧ (200 : Int) < 300
      ∧ DateFieldComparisonValidator.Validate ⟨"after", true, afterFieldPath⟩
          ⟨Value.vDate 300, twoRefTree 100 200⟩ = true)
    ∧ ((100 : Int) < 150 ∧ (150 : Int) ≤ 200
      ∧ DateFieldComparisonValidator.Validate ⟨"after", true, afterFieldPath⟩
          ⟨Value.vDate 150, twoRefTree 100 200⟩ = false) :=
  ⟨⟨by decide, by decide,
      after_field_wildcard_broadcast.2.1 100 200 300 (by decide) (by decide)⟩,
   ⟨by decide, by decide,
      after_field_wildcard_broadcast.2.2.1 100 200 150 (by decide) (by decide)⟩⟩

/-- C8: registering a rule under an already-registered name fails
fatally, and a successful first registration remains intact and
queryable after the failed duplicate attempt. -/
theorem addRule_duplicate_panics :
    (∀ (name : String) (td : Bool) (f : RuleFn) (reg : Registry),
      (lookupRule reg.validationRules name).isSome = true →
      AddRule name td f reg = none)
    ∧ (∀ (name : String) (td td2 : Bool) (f f2 : RuleFn),
      (lookupRule initRegistry.validationRules name).isSome = false →
      ∃ reg2, AddRule name td f initRegistry = some reg2
        ∧ lookupRule reg2.validationRules name = some f
        ∧ AddRule name td2 f2 reg2 = none) := by
  constructor
  · intro name td f reg h
    simp [AddRule, h]
  · intro name td td2 f f2 h
    have hnone : lookupRule initRegistry.validationRules name = none := by
      cases hh : lookupRule initRegistry.validationRules name
      · rfl
      · rw [hh] at h
        simp at h
    have hlook : lookupRule (initRegistry.validationRules ++ [(name, f)]) name = some f :=
      lookupRule_append _ _ _ hnone
    refine ⟨{ validationRules := initRegistry.validationRules ++ [(name, f)],
              typeDependentMessageRules :=
                if td then initRegistry.typeDependentMessageRules ++ [name]
                else initRegistry.typeDependentMessageRules }, ?_, hlook, ?_⟩
    · simp [AddRule, h]
    · simp [AddRule, hlook]

/-- C8 witness: instantiated at the fresh name `"new_rule"`. -/
theorem addRule_duplicate_panics_witness :
    (lookupRule initRegistry.validationRules "new_rule").isSome = false
    ∧ ∃ reg2, AddRule "new_rule" false otherRule initRegistry = some reg2
        ∧ lookupRule reg2.validationRules "new_rule" = some otherRule
        ∧ AddRule "new_rule" false otherRule reg2 = none :=
  ⟨rfl, addRule_duplicate_panics.2 "new_rule" false false otherRule otherRule rfl⟩

/-- C9 counterexample: `probeRule` passes exactly when invoked with the
full two-field tree `probeTree` (first conjunct), yet running it as a
per-array-element check on the field `"a"` of that very tree fails on
the element — so the behavior was invoked with something other than the
full data tree (the throwaway single-entry tree of
`validateRuleInArray`), refuting the claim that every rule evaluation,
including per-array-element checks, receives a back-reference to the
full data tree.  (The `Rule` signature also carries no element index at
all.) -/
theorem ruleInArray_context_counterexample :
    isProbeTree probeTree = true
    ∧ validateRuleInArray
        { validationRules := [("probe", probeRule)], typeDependentMessageRules := [] }
        "probe" "a" probeTree [] = some (some (Value.vInt 1), probeTree) :=
  ⟨rfl, rfl⟩

/-- C9 amended: a scalar rule evaluation is invoked with the full
current data tree (the full-tree probe passes when run as a scalar rule
on a sibling field), but a per-array-element evaluation is invoked with
a throwaway single-entry tree mapping the field name to the current
element (the single-entry probe passes per element, and the outcome of a
per-element check depends only on the field's own value, never on
sibling fields); no element index is passed. -/
theorem rule_context_scope :
    (∀ (reg : Registry) (ruleName fieldName : String) (data1 data2 : DataTree)
        (params : List String),
      goGet data1 fieldName = goGet data2 fieldName →
      arrayRuleView (validateRuleInArray reg ruleName fieldName data1 params) fieldName
        = arrayRuleView (validateRuleInArray reg ruleName fieldName data2 params) fieldName)
    ∧ (∀ g, validate
        { validationRules := [("probe", probeRule)], typeDependentMessageRules := [] }
        g "application/json" probeTree [("b", ["probe"])] "en-US" = some ([], probeTree))
    ∧ validateRuleInArray
        { validationRules := [("eprobe", elemProbeRule)], typeDependentMessageRules := [] }
        "eprobe" "a" probeTree [] = some (none, probeTree) := by
  refine ⟨?_, fun g => rfl, rfl⟩
  intro reg ruleName fieldName data1 data2 params h
  unfold validateRuleInArray
  rw [h]
  cases goGet data2 fieldName
  case vArr elems =>
    cases lookupRule reg.validationRules ruleName
    case some r => simp [arrayRuleView, goGet_setKey]
    case none => rfl
  all_goals rfl

/-- C9 amended witness: the element-locality statement instantiated at
`probeTree` against a tree stripped to the array field only. -/
theorem rule_context_scope_witness :
    goGet probeTree "a" = goGet [("a", Value.vArr [Value.vInt 1])] "a"
    ∧ arrayRuleView (validateRuleInArray initRegistry "min" "a" probeTree ["1"]) "a"
      = arrayRuleView
          (validateRuleInArray initRegistry "min" "a" [("a", Value.vArr [Value.vInt 1])] ["1"]) "a" :=
  ⟨rfl, rule_context_scope.1 initRegistry "min" "a" probeTree
    [("a", Value.vArr [Value.vInt 1])] ["1"] rfl⟩
